import Mathlib

/-! # pptftc — attribution-and-ranking engine, shallow embedding

Shallow embedding of the core of the pptftc repository (`models.py`,
`metic.py`, `prioritize.py`, `data_extract.py`).  Python floats are
modelled as rationals, dictionaries as association lists in insertion
order, `collections.Counter` as the list of its elements in insertion
order (so counter equality is multiset equality of the lists), and
Python's stable `sorted(key=...)` as an insertion sort over the same
comparison: a stable sort's output is uniquely determined by the
comparison, so insertion sort — stable and structurally recursive — is
extensionally the same function.  Fallible code is `Option`-valued.
-/

namespace PPTFTC

/-- Test row (models.py:43-52): id, pass/fail flag, execution duration
(`run_time`), declaration line number (`loc`). -/
structure Test where
  id : String
  is_passed : Bool
  run_time : ℚ
  loc : ℤ
  deriving DecidableEq

/-- Commit row (models.py:15-22): hash, parent hash, timestamp and
`id_num` ("Recent commit has lower count value").  These are all the
columns the model declares. -/
structure CommitRec where
  hash : String
  parent : String
  timestamp : ℤ
  id_num : ℤ
  deriving DecidableEq

/-- One diff hunk `(old_start, old_lines, new_start, new_lines)`
(models.py:31, data_extract.py:164-167). -/
structure Hunk where
  old_start : ℕ
  old_lines : ℕ
  new_start : ℕ
  new_lines : ℕ
  deriving DecidableEq

/-- File row (models.py:34-40): path and the pickled per-line blame list
`line_touched_hashes`.  The prioritizer treats the stored entries as
opaque values; they are modelled as strings here (see
`build_line_touched_hashes` for what the extractor actually stores). -/
structure FileRec where
  path : String
  line_touched_hashes : List String
  deriving DecidableEq

/-- The data a `Prioritizer` holds after its `target_project` and
`target_commit` setters ran (prioritize.py:34-125): the target commit's
hash, and the five query results as insertion-ordered association
lists / lists (Python dicts preserve insertion order). -/
structure PState where
  target_hash : String
  data_commits : List (String × CommitRec)
  data_files : List FileRec
  data_diffs : List (String × List Hunk)
  data_tests : List Test
  data_coverages : List (String × List (String × List ℕ))
  deriving DecidableEq

/-- `total_fail` (metic.py:9). -/
def total_fail (tests : List Test) : ℕ :=
  (tests.filter (fun t => !t.is_passed)).length

/-- `total_run_time` (metic.py:10). -/
def total_run_time (tests : List Test) : ℚ :=
  (tests.map (fun t => t.run_time)).sum

/-- `CalculateMetric.calculate` (metic.py:6-22): one left-to-right pass
carrying `(total_area, num_fail)`. -/
def calculate (tests : List Test) : ℚ :=
  (tests.foldl
    (fun (acc : ℚ × ℕ) t =>
      if t.is_passed then
        (acc.1 + ((acc.2 : ℚ) / (total_fail tests : ℚ))
            * (t.run_time / total_run_time tests) * 100,
         acc.2)
      else
        (acc.1 + (((2 * acc.2 + 1 : ℕ) : ℚ) / (total_fail tests : ℚ))
            * (t.run_time / total_run_time tests) / 2 * 100,
         acc.2 + 1))
    (0, 0)).1

/-- Modelled from the spec (§4.3): process tests left to right with a
running count `k` of failures seen before the current test; a passing
test contributes `(k / F) * (duration / R) * 100`, a failing test
contributes `((2k + 1) / F) * (duration / R) / 2 * 100` and increments
`k`. -/
def spec_walk (F R : ℚ) : ℕ → List Test → ℚ
  | _, [] => 0
  | k, t :: ts =>
    if t.is_passed then
      ((k : ℚ) / F) * (t.run_time / R) * 100 + spec_walk F R k ts
    else
      ((2 * (k : ℚ) + 1) / F) * (t.run_time / R) / 2 * 100 + spec_walk F R (k + 1) ts

/-- Modelled from the spec (§4.3): the fault-detection metric as the sum
of the per-test contributions. -/
def spec_metric (tests : List Test) : ℚ :=
  spec_walk (total_fail tests) (total_run_time tests) 0 tests

/-- `bisect.bisect_left` (stdlib) on a sorted list: the leftmost
insertion point, i.e. the length of the longest prefix of elements
strictly below the probe. -/
def bisect_left (l : List ℕ) (v : ℕ) : ℕ :=
  (l.takeWhile (fun x => x < v)).length

/-- `Prioritizer._has_value` (prioritize.py:284-286). -/
def has_value (l : List ℕ) (v : ℕ) : Bool :=
  let index := bisect_left l v
  if index < l.length then l.getD index 0 == v else false

/-- The hunk loop body of `_get_covering_hashes` (prioritize.py:237-247):
a pure-insertion hunk (`old_lines == 0 and new_lines > 0`) whose
surrounding lines are covered (a boundary beyond the start or end of the
file counting as covered) contributes `new_lines` copies of the target
commit's hash; other hunks only mutate the local copy `file_hashes`,
which line 249 rebinds before it is ever read, so they contribute
nothing observable. -/
def hunk_insertion_contribution (target : String) (covered_line : List ℕ)
    (file_length : ℕ) (h : Hunk) : List String :=
  if h.old_lines = 0 ∧ 0 < h.new_lines then
    let prev_covered := if 1 < h.new_start then has_value covered_line (h.new_start - 1) else true
    let next_covered := if h.new_start ≤ file_length then has_value covered_line h.new_start else true
    if prev_covered && next_covered then List.replicate h.new_lines target else []
  else []

/-- The per-file body of `_get_covering_hashes` (prioritize.py:226-250):
skip the file when the test does not cover it; otherwise the insertion
hunks' contributions followed by the blame owner
`line_touched_hashes[line - 1]` of every covered line (line 249 reads
the original, unmutated list).  Covered lines are in `[1, length]` per
the data-model invariant, so the `getD` default is never read there. -/
def file_covering_hashes (target : String) (data_diffs : List (String × List Hunk))
    (cov_files : List (String × List ℕ)) (file : FileRec) : List String :=
  match List.lookup file.path cov_files with
  | none => []
  | some covered_line =>
    let diff_hunks := (List.lookup file.path data_diffs).getD []
    let file_length := file.line_touched_hashes.length
    (diff_hunks.map (hunk_insertion_contribution target covered_line file_length)).flatten
      ++ covered_line.map (fun line => file.line_touched_hashes.getD (line - 1) "")

/-- `Prioritizer._get_covering_hashes` (prioritize.py:224-252): the
covering-hash counter of one test, as the list of its elements in
insertion order (files in `_data_files` order). -/
def get_covering_hashes (st : PState) (test_id : String) : List String :=
  let cov_files := (List.lookup test_id st.data_coverages).getD []
  (st.data_files.map (file_covering_hashes st.target_hash st.data_diffs cov_files)).flatten

/-- The sum in `_get_covered_loc` (prioritize.py:275): total number of
covered lines of the test over all files. -/
def covered_loc_raw (st : PState) (test_id : String) : ℕ :=
  (((List.lookup test_id st.data_coverages).getD []).map (fun fc => fc.2.length)).sum

/-- `Prioritizer._get_covered_loc` (prioritize.py:274-277):
`result if result else 1`. -/
def get_covered_loc (st : PState) (test_id : String) : ℕ :=
  let result := covered_loc_raw st test_id
  if result ≠ 0 then result else 1

/-- `Prioritizer._get_latest_commit_count` (prioritize.py:254-255): the
counter's count for the target commit's own hash. -/
def get_latest_commit_count (st : PState) (t : Test) : ℕ :=
  (get_covering_hashes st t.id).count st.target_hash

/-- Integer-valued dynamic attribute access on a Commit row, as Python's
`getattr` resolves it against models.py:15-22: the declared columns are
`project_id, hash, parent, timestamp, id_num`, so reading any other
name — in particular the `commit.count` that prioritize.py:261,269
uses — raises `AttributeError`, modelled as `none`. -/
def CommitRec.attr_int (c : CommitRec) : String → Option ℤ
  | "timestamp" => some c.timestamp
  | "id_num" => some c.id_num
  | _ => none

/-- `Prioritizer._get_ahead_count` (prioritize.py:257-272).  Both list
comprehensions run `self._data_commits[hash].count` over the counter's
keys that have a Commit record; an `AttributeError` from that access
makes the whole call fail (`none`).  `min(list) if list else 0` is
`List.min?` with default 0. -/
def get_ahead_count (st : PState) (t : Test) : Option ℤ :=
  let counter := get_covering_hashes st t.id
  let present := counter.dedup.filter (fun h => (List.lookup h st.data_commits).isSome)
  match present.mapM (fun h => (List.lookup h st.data_commits).bind (fun c => c.attr_int "count")) with
  | none => none
  | some commit_count_list =>
    let min_commit_count := commit_count_list.min?.getD 0
    some (((present.zip commit_count_list).map
      (fun pr => (pr.2 - min_commit_count) * ((counter.count pr.1 : ℤ)))).sum)

/-- Lexicographic order on key pairs, as Python compares tuples. -/
abbrev rat_lex_le (p q : ℚ × ℚ) : Prop :=
  p.1 < q.1 ∨ (p.1 = q.1 ∧ p.2 ≤ q.2)

/-- Python's stable `sorted(key=...)` for a pair key (tuple keys in the
source), modelled as insertion sort over the lexicographic comparison. -/
def py_sorted_pair (key : Test → ℚ × ℚ) (l : List Test) : List Test :=
  @List.insertionSort Test (fun a b => rat_lex_le (key a) (key b))
    (fun a b => inferInstanceAs (Decidable (rat_lex_le (key a) (key b)))) l

/-- Python's stable `sorted(key=...)` for a scalar key. -/
def py_sorted_rat (key : Test → ℚ) (l : List Test) : List Test :=
  @List.insertionSort Test (fun a b => key a ≤ key b)
    (fun a b => inferInstanceAs (Decidable (key a ≤ key b))) l

/-- `Prioritizer.by_loc` (prioritize.py:137-142): key
`(loc * multiplier, run_time)`. -/
def by_loc (st : PState) (desc : Bool) : List Test :=
  let multiplier : ℤ := if desc then -1 else 1
  py_sorted_pair (fun x => (((x.loc * multiplier : ℤ) : ℚ), x.run_time)) st.data_tests

/-- `Prioritizer.by_coverage` (prioritize.py:144-149): key
`(_get_covered_loc(x) * multiplier, run_time)`. -/
def by_coverage (st : PState) (desc : Bool) : List Test :=
  let multiplier : ℤ := if desc then -1 else 1
  py_sorted_pair (fun x => ((((get_covered_loc st x.id : ℤ) * multiplier : ℤ) : ℚ), x.run_time)) st.data_tests

/-- `Prioritizer.by_run_time` (prioritize.py:151-156): key
`run_time * multiplier`, no tie-break. -/
def by_run_time (st : PState) (desc : Bool) : List Test :=
  let multiplier : ℤ := if desc then -1 else 1
  py_sorted_rat (fun x => x.run_time * (multiplier : ℚ)) st.data_tests

/-- `Prioritizer.by_latest_commit_count` (prioritize.py:158-162): key
`(-_get_latest_commit_count(x), run_time)`. -/
def by_latest_commit_count (st : PState) : List Test :=
  py_sorted_pair (fun x => (-(get_latest_commit_count st x : ℚ), x.run_time)) st.data_tests

/-- `Prioritizer.by_latest_commit_ratio` (prioritize.py:164-168): key
`-(_get_latest_commit_count(x) / _get_covered_loc(x))` alone — no
run_time component. -/
def by_latest_commit_ratio (st : PState) : List Test :=
  py_sorted_rat (fun x => -((get_latest_commit_count st x : ℚ) / (get_covered_loc st x.id : ℚ))) st.data_tests

/-- `Prioritizer.by_commit_ahead_sum` (prioritize.py:170-174): key
`(_get_ahead_count(x), run_time)`.  `sorted()` evaluates the key on
every element before comparing, so one failing `_get_ahead_count`
aborts the call (`none`). -/
def by_commit_ahead_sum (st : PState) : Option (List Test) :=
  if ∀ t ∈ st.data_tests, (get_ahead_count st t).isSome then
    some (py_sorted_pair
      (fun x => ((((get_ahead_count st x).getD 0 : ℤ) : ℚ), x.run_time)) st.data_tests)
  else none

/-- `Prioritizer.by_commit_ahead_average` (prioritize.py:176-180): key
`_get_ahead_count(x) / _get_covered_loc(x)` alone — no run_time
component. -/
def by_commit_ahead_average (st : PState) : Option (List Test) :=
  if ∀ t ∈ st.data_tests, (get_ahead_count st t).isSome then
    some (py_sorted_rat
      (fun x => (((get_ahead_count st x).getD 0 : ℤ) : ℚ) / (get_covered_loc st x.id : ℚ)) st.data_tests)
  else none

/-- The strategy tags (prioritize.py:17-28). -/
inductive PrioritizeMethod
  | BaseRandom
  | BaseLOCInc
  | BaseLOCDesc
  | BaseCoverageInc
  | BaseCoverageDesc
  | BaseRuntimeInc
  | BaseRuntimeDesc
  | LatestCommitRatio
  | LatestCommitCount
  | CommitAheadAverage
  | CommitAheadSum
  deriving DecidableEq

/-- `Prioritizer.METHOD_MAPPING` as `__init__` populates it
(prioritize.py:48-61), dispatching on the bound instance `self`.  Note
lines 57-58 of the source: the tag `LatestCommitRatio` is bound to the
method `by_latest_commit_count` and the tag `LatestCommitCount` to
`by_latest_commit_ratio`.  `shuffle` stands for `random.shuffle`'s
permutation in `by_random`. -/
def METHOD_MAPPING (shuffle : List Test → List Test) (self : PState) :
    PrioritizeMethod → Option (List Test)
  | .BaseRandom => some (shuffle self.data_tests)
  | .BaseLOCInc => some (by_loc self false)
  | .BaseLOCDesc => some (by_loc self true)
  | .BaseCoverageInc => some (by_coverage self false)
  | .BaseCoverageDesc => some (by_coverage self true)
  | .BaseRuntimeInc => some (by_run_time self false)
  | .BaseRuntimeDesc => some (by_run_time self true)
  | .LatestCommitRatio => some (by_latest_commit_count self)
  | .LatestCommitCount => some (by_latest_commit_ratio self)
  | .CommitAheadAverage => by_commit_ahead_average self
  | .CommitAheadSum => by_commit_ahead_sum self

/-- The class attribute `Prioritizer.METHOD_MAPPING` through
`__init__` (prioritize.py:32,48-61): `None` initially, and populated
with the constructing instance's bound methods only while still `None`,
so it permanently holds the first instance. -/
def init_method_mapping (mapping : Option PState) (self : PState) : Option PState :=
  match mapping with
  | none => some self
  | some first => some first

/-- `Prioritizer.by_all` (prioritize.py:182-186): iterates the class
attribute `Prioritizer.METHOD_MAPPING`; the receiver `_self` is not
consulted.  `none` models the crash when the mapping was never built. -/
def by_all (shuffle : List Test → List Test) (mapping : Option PState) (_self : PState) :
    Option (PrioritizeMethod → Option (List Test)) :=
  mapping.map (fun bound => METHOD_MAPPING shuffle bound)

/-- One hunk of `pygit2` blame output as `DataExtractor.run` consumes it
(data_extract.py:249-251): the owning commit id and the number of
consecutive lines it owns.  The hunks cover the file's lines in order. -/
structure BlameHunk where
  final_commit_id : String
  lines_in_hunk : ℕ
  deriving DecidableEq

/-- The blame list `DataExtractor.run` stores as `line_touched_hashes`
(data_extract.py:246-258): `touched_hash = [None]`, then for every blame
hunk `lines_in_hunk` copies of its commit id are appended. -/
def build_line_touched_hashes (blame : List BlameHunk) : List (Option String) :=
  blame.foldl
    (fun acc bh => acc ++ List.replicate bh.lines_in_hunk (some bh.final_commit_id))
    [none]

/-- Modelled from the spec (§3, FileBlame): the ordered per-line owner
sequence, index 0 = line 1, one entry per line of the file — the blame
hunks' ids flattened in order. -/
def blame_line_owners (blame : List BlameHunk) : List String :=
  (blame.map (fun bh => List.replicate bh.lines_in_hunk bh.final_commit_id)).flatten

/-- Modelled from the spec (§4.1 step 4 and §8 "Attribution
correctness"): the blame-owner counts of a test's covered lines — for
every covered file, the owning hash `blame[line - 1]` of each covered
line, with no hunk contribution. -/
def blame_owner_hashes (st : PState) (test_id : String) : List String :=
  let cov_files := (List.lookup test_id st.data_coverages).getD []
  (st.data_files.map (fun file =>
    match List.lookup file.path cov_files with
    | none => []
    | some covered_line =>
      covered_line.map (fun line => file.line_touched_hashes.getD (line - 1) ""))).flatten

/-- Restriction of a diff table to its pure-insertion hunks
(`old_lines == 0 and new_lines > 0`). -/
def insertions_only (diffs : List (String × List Hunk)) : List (String × List Hunk) :=
  diffs.map (fun pr => (pr.1, pr.2.filter (fun h => h.old_lines == 0 && decide (0 < h.new_lines))))

/-- Concrete fixture tests and states used by the claim theorems. -/
def tA1 : Test := ⟨"A", true, 1, 0⟩
def tB1 : Test := ⟨"B", true, 2, 0⟩
def exC1 : PState :=
  { target_hash := "c0"
    data_commits := []
    data_files := [⟨"f.py", ["c0","c0","c0","c1","c1","c1","c1","c1","c1","c1"]⟩]
    data_diffs := []
    data_tests := [tA1, tB1]
    data_coverages := [("A", [("f.py", [1,2,3,4,5,6,7,8,9,10])]), ("B", [("f.py", [1,2])])] }
def c0rec : CommitRec := ⟨"c0", "p0", 0, 1⟩
def exC2 : PState :=
  { target_hash := "c0"
    data_commits := [("c0", c0rec)]
    data_files := [⟨"f.py", ["c0"]⟩]
    data_diffs := []
    data_tests := [tA1]
    data_coverages := [("A", [("f.py", [1])])] }
def tX6 : Test := ⟨"X", true, 5, 7⟩
def tY6 : Test := ⟨"Y", true, 3, 7⟩
def exC6 : PState :=
  { target_hash := "c0", data_commits := [], data_files := [], data_diffs := [],
    data_tests := [tX6, tY6], data_coverages := [] }

def example_tests : List Test :=
  [⟨"t1", false, 5, 0⟩, ⟨"t2", false, 70, 0⟩, ⟨"t3", true, 10, 0⟩,
   ⟨"t4", true, 5, 0⟩, ⟨"t5", true, 10, 0⟩]

def tP9 : Test := ⟨"p", true, 0, 0⟩
def tF9 : Test := ⟨"f", false, 1, 0⟩

def hunkW : Hunk := ⟨2, 0, 3, 2⟩

def exBlame : List BlameHunk := [⟨"h1", 1⟩, ⟨"h2", 1⟩]

def exEmpty : PState := ⟨"c0", [], [], [], [], []⟩

theorem rat_lex_le_total (p q : ℚ × ℚ) : rat_lex_le p q ∨ rat_lex_le q p := by
  rcases lt_trichotomy p.1 q.1 with h | h | h
  · exact Or.inl (Or.inl h)
  · rcases le_total p.2 q.2 with h2 | h2
    · exact Or.inl (Or.inr ⟨h, h2⟩)
    · exact Or.inr (Or.inr ⟨h.symm, h2⟩)
  · exact Or.inr (Or.inl h)

theorem rat_lex_le_trans {p q r : ℚ × ℚ} (h1 : rat_lex_le p q) (h2 : rat_lex_le q r) :
    rat_lex_le p r := by
  rcases h1 with h1 | ⟨h1e, h1le⟩
  · rcases h2 with h2 | ⟨h2e, _⟩
    · exact Or.inl (h1.trans h2)
    · exact Or.inl (h2e ▸ h1)
  · rcases h2 with h2 | ⟨h2e, h2le⟩
    · exact Or.inl (h1e ▸ h2)
    · exact Or.inr ⟨h1e.trans h2e, h1le.trans h2le⟩

theorem pairwise_py_sorted_pair (key : Test → ℚ × ℚ) (l : List Test) :
    (py_sorted_pair key l).Pairwise (fun a b => rat_lex_le (key a) (key b)) := by
  have tot : IsTotal Test (fun a b => rat_lex_le (key a) (key b)) :=
    ⟨fun a b => rat_lex_le_total (key a) (key b)⟩
  have tr : IsTrans Test (fun a b => rat_lex_le (key a) (key b)) :=
    ⟨fun _ _ _ h1 h2 => rat_lex_le_trans h1 h2⟩
  exact @List.sorted_insertionSort Test (fun a b => rat_lex_le (key a) (key b))
    (fun a b => inferInstanceAs (Decidable (rat_lex_le (key a) (key b)))) tot tr l

theorem pairwise_tiebreak (k1 : Test → ℚ) (l : List Test) :
    (py_sorted_pair (fun x => (k1 x, x.run_time)) l).Pairwise
      (fun a b => k1 a = k1 b → a.run_time ≤ b.run_time) := by
  refine (pairwise_py_sorted_pair _ l).imp ?_
  intro a b h heq
  rcases h with h | ⟨_, h2⟩
  · rw [heq] at h; exact absurd h (lt_irrefl _)
  · exact h2

/-- C1: the claim says the strategy tagged `LatestCommitCount` returns the
tests in descending `latestCommitCount` order with ascending-duration
tie-break, and `LatestCommitRatio` the descending-ratio order.  The code
binds the two tags to each other's method (prioritize.py:57-58), so on
`exC1` — where `latestCommitCount` is 3 for `tA1` and 2 for `tB1`, making
the claimed order `[tA1, tB1]` — dispatching the tag `LatestCommitCount`
returns the ratio ordering `[tB1, tA1]`, and the tag `LatestCommitRatio`
returns the count ordering `[tA1, tB1]`. -/
theorem C1_method_mapping_swapped :
    METHOD_MAPPING id exC1 PrioritizeMethod.LatestCommitCount = some [tB1, tA1]
  ∧ METHOD_MAPPING id exC1 PrioritizeMethod.LatestCommitRatio = some [tA1, tB1]
  ∧ get_latest_commit_count exC1 tA1 = 3
  ∧ get_latest_commit_count exC1 tB1 = 2
  ∧ tA1.run_time < tB1.run_time := by
  refine ⟨?_, by decide, by decide, by decide, by decide⟩
  have hA : get_latest_commit_count exC1 tA1 = 3 := by decide
  have hB : get_latest_commit_count exC1 tB1 = 2 := by decide
  have hA' : get_covered_loc exC1 tA1.id = 10 := by decide
  have hB' : get_covered_loc exC1 tB1.id = 2 := by decide
  show some (by_latest_commit_ratio exC1) = _
  norm_num [by_latest_commit_ratio, py_sorted_rat, List.insertionSort, List.orderedInsert,
    hA, hB, hA', hB']

/-- C2: the claim says `aheadCount(T)` evaluates without error to the sum
of `(seq(hash) - minSeq) * count` over hashes with a Commit record.  On
`exC2` the covering multiset of `tA1` is exactly `["c0"]`, `"c0"` has a
Commit record with `id_num = 1`, so the claimed value is
`(1 - 1) * 1 = 0`; but `_get_ahead_count` reads the attribute `count`,
which models.py does not declare (`id_num` is the sequence column), so
the call raises `AttributeError` (`none`) instead. -/
theorem C2_ahead_count_raises :
    get_covering_hashes exC2 tA1.id = ["c0"]
  ∧ List.lookup "c0" exC2.data_commits = some c0rec
  ∧ c0rec.attr_int "count" = none
  ∧ c0rec.id_num = 1
  ∧ get_ahead_count exC2 tA1 = none := by decide

/-- C6 counterexample: `by_latest_commit_ratio` sorts by the ratio key
alone (prioritize.py:164-168 has no run_time component), so on `exC6`
the two tests have equal primary key `0` yet come out in input order
`[tX6 (run 5), tY6 (run 3)]` — not in ascending execution duration as
the claim states for every non-duration-primary strategy. -/
theorem C6_ratio_tiebreak_counterexample :
    by_latest_commit_ratio exC6 = [tX6, tY6]
  ∧ (get_latest_commit_count exC6 tX6 : ℚ) / (get_covered_loc exC6 tX6.id : ℚ)
      = (get_latest_commit_count exC6 tY6 : ℚ) / (get_covered_loc exC6 tY6.id : ℚ)
  ∧ tY6.run_time < tX6.run_time
  ∧ ¬ ((by_latest_commit_ratio exC6).Pairwise
        (fun a b =>
          (get_latest_commit_count exC6 a : ℚ) / (get_covered_loc exC6 a.id : ℚ)
            = (get_latest_commit_count exC6 b : ℚ) / (get_covered_loc exC6 b.id : ℚ)
          → a.run_time ≤ b.run_time)) := by
  have hX : get_latest_commit_count exC6 tX6 = 0 := by decide
  have hY : get_latest_commit_count exC6 tY6 = 0 := by decide
  have hX' : get_covered_loc exC6 tX6.id = 1 := by decide
  have hY' : get_covered_loc exC6 tY6.id = 1 := by decide
  have hsort : by_latest_commit_ratio exC6 = [tX6, tY6] := by
    norm_num [by_latest_commit_ratio, py_sorted_rat, List.insertionSort, List.orderedInsert,
      hX, hY, hX', hY']
  refine ⟨hsort, by norm_num [hX, hY, hX', hY'], by decide, ?_⟩
  rw [hsort]
  simp only [List.pairwise_cons, List.mem_singleton]
  intro hp
  have := (hp.1 tY6 rfl) (by norm_num [hX, hY, hX', hY'])
  revert this
  decide

/-- C6 (amended): any two tests with equal primary key appear in
ascending execution-duration order for the LOC, Coverage,
LatestCommitCount and CommitAheadSum strategies — whose sort keys pair
the primary key with run_time — but not for LatestCommitRatio and
CommitAheadAverage, which sort by the ratio key alone. -/
theorem C6_tiebreak_amended :
    (∀ (st : PState) (desc : Bool),
       (by_loc st desc).Pairwise (fun a b => a.loc = b.loc → a.run_time ≤ b.run_time))
  ∧ (∀ (st : PState) (desc : Bool),
       (by_coverage st desc).Pairwise
         (fun a b => get_covered_loc st a.id = get_covered_loc st b.id → a.run_time ≤ b.run_time))
  ∧ (∀ st : PState,
       (by_latest_commit_count st).Pairwise
         (fun a b => get_latest_commit_count st a = get_latest_commit_count st b
            → a.run_time ≤ b.run_time))
  ∧ (∀ (st : PState) (l : List Test), by_commit_ahead_sum st = some l →
       l.Pairwise (fun a b => get_ahead_count st a = get_ahead_count st b
          → a.run_time ≤ b.run_time)) := by
  refine ⟨?_, ?_, ?_, ?_⟩
  · intro st desc
    refine (pairwise_tiebreak _ _).imp ?_
    intro a b h heq
    exact h (by rw [heq])
  · intro st desc
    refine (pairwise_tiebreak _ _).imp ?_
    intro a b h heq
    exact h (by rw [heq])
  · intro st
    refine (pairwise_tiebreak _ _).imp ?_
    intro a b h heq
    exact h (by rw [heq])
  · intro st l hl
    unfold by_commit_ahead_sum at hl
    split at hl
    · cases hl
      refine (pairwise_tiebreak _ _).imp ?_
      intro a b h heq
      exact h (by rw [heq])
    · cases hl

/-- Witness for C6 (amended): `by_commit_ahead_sum` on `exC6` succeeds
and orders the equal-key tests by ascending duration. -/
theorem C6_tiebreak_amended_witness :
    by_commit_ahead_sum exC6 = some [tY6, tX6]
  ∧ ([tY6, tX6] : List Test).Pairwise
      (fun a b => get_ahead_count exC6 a = get_ahead_count exC6 b → a.run_time ≤ b.run_time) :=
  ⟨by decide, C6_tiebreak_amended.2.2.2 exC6 [tY6, tX6] (by decide)⟩

/-- C10: `METHOD_MAPPING` is a class-level singleton built once from the
first instance's bound methods — `__init__` populates it only while it
is `None` — so after constructing `p1` and then `p2`, `by_all` invoked
on `p2` dispatches every strategy against `p1`'s loaded data. -/
theorem C10_method_mapping_singleton (p1 p2 : PState) (shuffle : List Test → List Test) :
    init_method_mapping none p1 = some p1
  ∧ init_method_mapping (init_method_mapping none p1) p2 = some p1
  ∧ by_all shuffle (init_method_mapping (init_method_mapping none p1) p2) p2
      = some (METHOD_MAPPING shuffle p1) :=
  ⟨rfl, rfl, rfl⟩

theorem calc_foldl_eq (F R : ℚ) (ts : List Test) : ∀ (a : ℚ) (k : ℕ),
    (ts.foldl (fun (acc : ℚ × ℕ) t =>
      if t.is_passed then
        (acc.1 + ((acc.2 : ℚ) / F) * (t.run_time / R) * 100, acc.2)
      else
        (acc.1 + (((2 * acc.2 + 1 : ℕ) : ℚ) / F) * (t.run_time / R) / 2 * 100, acc.2 + 1))
      (a, k)).1
    = a + spec_walk F R k ts := by
  induction ts with
  | nil => intro a k; simp [spec_walk]
  | cons t ts ih =>
    intro a k
    rw [List.foldl_cons]
    by_cases h : t.is_passed
    · simp only [h, if_true]
      rw [ih]
      simp only [spec_walk, h, if_true]
      ring
    · simp only [h, if_false]
      rw [ih]
      simp only [spec_walk, h, if_false]
      push_cast
      ring

theorem calculate_eq_spec_metric (tests : List Test) : calculate tests = spec_metric tests := by
  unfold calculate spec_metric
  rw [calc_foldl_eq]
  rw [zero_add]

theorem total_run_time_cons (t : Test) (ts : List Test) :
    total_run_time (t :: ts) = t.run_time + total_run_time ts := by
  simp [total_run_time]

theorem total_run_time_append (l1 l2 : List Test) :
    total_run_time (l1 ++ l2) = total_run_time l1 + total_run_time l2 := by
  simp [total_run_time]

theorem total_run_time_nonneg (l : List Test) (h : ∀ t ∈ l, 0 ≤ t.run_time) :
    0 ≤ total_run_time l := by
  apply List.sum_nonneg
  intro x hx
  rcases List.mem_map.mp hx with ⟨t, ht, rfl⟩
  exact h t ht

theorem total_fail_one_left (f : Test) (rest : List Test) (hf : f.is_passed = false)
    (hp : ∀ t ∈ rest, t.is_passed = true) : total_fail (f :: rest) = 1 := by
  have hnil : rest.filter (fun t => !t.is_passed) = [] :=
    List.filter_eq_nil_iff.mpr (fun t ht => by simp [hp t ht])
  simp [total_fail, List.filter_cons, hf, hnil]

theorem total_fail_one_right (f : Test) (rest : List Test) (hf : f.is_passed = false)
    (hp : ∀ t ∈ rest, t.is_passed = true) : total_fail (rest ++ [f]) = 1 := by
  have hnil : rest.filter (fun t => !t.is_passed) = [] :=
    List.filter_eq_nil_iff.mpr (fun t ht => by simp [hp t ht])
  simp [total_fail, List.filter_append, List.filter_cons, hf, hnil]

theorem spec_walk_nonneg (F R : ℚ) (hF : 0 ≤ F) (hR : 0 ≤ R) (ts : List Test) :
    ∀ k : ℕ, (∀ t ∈ ts, 0 ≤ t.run_time) → 0 ≤ spec_walk F R k ts := by
  induction ts with
  | nil => intro k _; simp [spec_walk]
  | cons t ts ih =>
    intro k hnn
    have hrt : 0 ≤ t.run_time := hnn t (List.mem_cons_self t ts)
    have hts : ∀ u ∈ ts, 0 ≤ u.run_time := fun u hu => hnn u (List.mem_cons_of_mem _ hu)
    by_cases h : t.is_passed
    · simp only [spec_walk, h, if_true]
      have h1 : 0 ≤ ((k : ℚ) / F) * (t.run_time / R) * 100 :=
        mul_nonneg (mul_nonneg (div_nonneg (Nat.cast_nonneg k) hF) (div_nonneg hrt hR))
          (by norm_num)
      linarith [ih k hts]
    · simp only [spec_walk, h, Bool.false_eq_true, if_false]
      have h1 : 0 ≤ ((2 * (k : ℚ) + 1) / F) * (t.run_time / R) / 2 * 100 := by
        apply mul_nonneg _ (by norm_num)
        apply div_nonneg _ (by norm_num)
        apply mul_nonneg (div_nonneg (by positivity) hF) (div_nonneg hrt hR)
      linarith [ih (k + 1) hts]

theorem spec_walk_allpass (F R : ℚ) (ts : List Test) :
    ∀ k : ℕ, (∀ t ∈ ts, t.is_passed = true) →
    spec_walk F R k ts = ((k : ℚ) / F) * (total_run_time ts / R) * 100 := by
  induction ts with
  | nil => intro k _; simp [spec_walk, total_run_time]
  | cons t ts ih =>
    intro k hall
    have ht : t.is_passed = true := hall t (List.mem_cons_self t ts)
    have hts : ∀ u ∈ ts, u.is_passed = true := fun u hu => hall u (List.mem_cons_of_mem _ hu)
    simp only [spec_walk, ht, if_true]
    rw [ih k hts, total_run_time_cons]
    ring

theorem spec_walk_append_pass (F R : ℚ) (l : List Test) (ps : List Test) :
    ∀ k : ℕ, (∀ t ∈ ps, t.is_passed = true) →
    spec_walk F R k (ps ++ l)
      = ((k : ℚ) / F) * (total_run_time ps / R) * 100 + spec_walk F R k l := by
  induction ps with
  | nil => intro k _; simp [total_run_time]
  | cons t ps ih =>
    intro k hall
    have ht : t.is_passed = true := hall t (List.mem_cons_self t ps)
    have hts : ∀ u ∈ ps, u.is_passed = true := fun u hu => hall u (List.mem_cons_of_mem _ hu)
    rw [List.cons_append]
    simp only [spec_walk, ht, if_true, List.append_eq]
    rw [ih k hts, total_run_time_cons]
    ring

theorem calc_fail_first (f : Test) (rest : List Test) (hf : f.is_passed = false)
    (hpass : ∀ t ∈ rest, t.is_passed = true) :
    calculate (f :: rest)
      = 50 * (f.run_time / total_run_time (f :: rest))
        + 100 * (total_run_time rest / total_run_time (f :: rest)) := by
  rw [calculate_eq_spec_metric]
  unfold spec_metric
  rw [total_fail_one_left f rest hf hpass, Nat.cast_one]
  simp only [spec_walk, hf, Bool.false_eq_true, if_false]
  rw [spec_walk_allpass 1 (total_run_time (f :: rest)) rest 1 hpass]
  push_cast
  ring

theorem calc_fail_last (f : Test) (rest : List Test) (hf : f.is_passed = false)
    (hpass : ∀ t ∈ rest, t.is_passed = true) :
    calculate (rest ++ [f]) = 50 * (f.run_time / total_run_time (rest ++ [f])) := by
  rw [calculate_eq_spec_metric]
  unfold spec_metric
  rw [total_fail_one_right f rest hf hpass, Nat.cast_one]
  rw [spec_walk_append_pass 1 (total_run_time (rest ++ [f])) [f] rest 0 hpass]
  simp only [spec_walk, hf, Bool.false_eq_true, if_false]
  push_cast
  ring

theorem total_run_time_example : total_run_time example_tests = 100 := by
  norm_num [total_run_time, example_tests]

/-- C3: for every ordering with at least one failing test and positive
total duration, `CalculateMetric.calculate` equals the spec's
left-to-right walk with running failure count `k` (passing tests
contribute `(k / F) * (d / R) * 100`, failing ones
`((2k + 1) / F) * (d / R) / 2 * 100` and increment `k`), and the worked
example `[(5, fail), (70, fail), (10, pass), (5, pass), (10, pass)]`
scores exactly `315 / 4 = 78.75`. -/
theorem C3_metric_refines_spec :
    (∀ tests : List Test, 1 ≤ total_fail tests → 0 < total_run_time tests →
       calculate tests = spec_metric tests)
  ∧ calculate example_tests = 315 / 4 := by
  constructor
  · intro tests _ _
    exact calculate_eq_spec_metric tests
  · norm_num [calculate, total_fail, total_run_time, example_tests]

/-- Witness for C3 at the worked example of metic.py. -/
theorem C3_metric_refines_spec_witness :
    1 ≤ total_fail example_tests ∧ 0 < total_run_time example_tests
  ∧ calculate example_tests = spec_metric example_tests :=
  ⟨by decide, by rw [total_run_time_example]; decide,
   C3_metric_refines_spec.1 example_tests (by decide) (by rw [total_run_time_example]; decide)⟩

/-- C9 (amended): for any ordering with at least one failure,
non-negative durations and positive total duration the metric is
non-negative; and moving the single failing test from last to first
never lowers the score, raising it strictly exactly when the passing
tests have positive total duration. -/
theorem C9_metric_bounds_amended :
    (∀ tests : List Test, 1 ≤ total_fail tests → 0 < total_run_time tests →
       (∀ t ∈ tests, 0 ≤ t.run_time) → 0 ≤ calculate tests)
  ∧ (∀ (f : Test) (rest : List Test), f.is_passed = false →
       (∀ t ∈ rest, t.is_passed = true) → (∀ t ∈ rest, 0 ≤ t.run_time) →
       0 < total_run_time (f :: rest) →
       calculate (rest ++ [f]) ≤ calculate (f :: rest)
       ∧ (calculate (rest ++ [f]) < calculate (f :: rest) ↔ 0 < total_run_time rest)) := by
  constructor
  · intro tests _ hR hnn
    rw [calculate_eq_spec_metric]
    unfold spec_metric
    exact spec_walk_nonneg _ _ (Nat.cast_nonneg _) (le_of_lt hR) tests 0 hnn
  · intro f rest hf hpass hnn hRpos
    have hTR2 : total_run_time (rest ++ [f]) = total_run_time (f :: rest) := by
      rw [total_run_time_append, total_run_time_cons]
      simp [total_run_time]
      ring
    rw [calc_fail_last f rest hf hpass, calc_fail_first f rest hf hpass, hTR2]
    have hSnn : 0 ≤ total_run_time rest := total_run_time_nonneg rest hnn
    refine ⟨?_, ?_, ?_⟩
    · have h0 : 0 ≤ 100 * (total_run_time rest / total_run_time (f :: rest)) := by
        have := div_nonneg hSnn (le_of_lt hRpos)
        linarith
      linarith
    · intro hlt
      rcases lt_or_eq_of_le hSnn with h | h
      · exact h
      · exfalso
        rw [← h, zero_div, mul_zero, add_zero] at hlt
        exact lt_irrefl _ hlt
    · intro hSpos
      have h0 : 0 < 100 * (total_run_time rest / total_run_time (f :: rest)) := by
        have := div_pos hSpos hRpos
        linarith
      linarith

/-- C9 counterexample: with a single failing test of duration 1 and one
passing test of duration 0, the fail-first and fail-last orderings both
score 50, so the claimed strict inequality fails. -/
theorem C9_fail_first_counterexample :
    tF9.is_passed = false ∧ tP9.is_passed = true
  ∧ 0 < total_run_time [tF9, tP9]
  ∧ calculate [tF9, tP9] = calculate [tP9, tF9]
  ∧ ¬ (calculate [tP9, tF9] < calculate [tF9, tP9]) := by
  have e1 : calculate [tF9, tP9] = 50 := by
    norm_num [calculate, total_fail, total_run_time, tF9, tP9]
  have e2 : calculate [tP9, tF9] = 50 := by
    norm_num [calculate, total_fail, total_run_time, tF9, tP9]
  refine ⟨by decide, by decide, ?_, by rw [e1, e2], by rw [e1, e2]; exact lt_irrefl 50⟩
  have : total_run_time [tF9, tP9] = 1 := by
    norm_num [total_run_time, tF9, tP9]
  rw [this]
  decide

/-- Witness for C9 (amended) at the worked example and at the ordering
`[tF9, tP9]`. -/
theorem C9_metric_bounds_amended_witness :
    (1 ≤ total_fail example_tests ∧ 0 < total_run_time example_tests
      ∧ (∀ t ∈ example_tests, 0 ≤ t.run_time) ∧ 0 ≤ calculate example_tests)
  ∧ (tF9.is_passed = false
      ∧ 0 < total_run_time (tF9 :: [tP9])
      ∧ calculate ([tP9] ++ [tF9]) ≤ calculate (tF9 :: [tP9])) := by
  refine ⟨⟨by decide, by rw [total_run_time_example]; decide, by decide, ?_⟩, by decide, ?_, ?_⟩
  · exact C9_metric_bounds_amended.1 example_tests (by decide)
      (by rw [total_run_time_example]; decide) (by decide)
  · have : total_run_time [tF9, tP9] = 1 := by norm_num [total_run_time, tF9, tP9]
    rw [show tF9 :: [tP9] = [tF9, tP9] from rfl, this]
    decide
  · exact (C9_metric_bounds_amended.2 tF9 [tP9] (by decide) (by decide) (by decide)
      (by have : total_run_time [tF9, tP9] = 1 := by norm_num [total_run_time, tF9, tP9]
          rw [show tF9 :: [tP9] = [tF9, tP9] from rfl, this]
          decide)).1

theorem has_value_cons_of_lt {a v : ℕ} (h : a < v) (t : List ℕ) :
    has_value (a :: t) v = has_value t v := by
  simp [has_value, bisect_left, List.takeWhile_cons, h, List.getD_cons_succ]

theorem has_value_cons_of_ge {a v : ℕ} (h : ¬ a < v) (t : List ℕ) :
    has_value (a :: t) v = (a == v) := by
  simp [has_value, bisect_left, List.takeWhile_cons, h]

theorem has_value_iff_mem {l : List ℕ} (hs : l.Sorted (· ≤ ·)) {v : ℕ} :
    has_value l v = true ↔ v ∈ l := by
  induction l with
  | nil => simp [has_value, bisect_left]
  | cons a t ih =>
    by_cases h : a < v
    · rw [has_value_cons_of_lt h, ih hs.of_cons]
      constructor
      · intro hm
        exact List.mem_cons_of_mem _ hm
      · intro hm
        rcases List.mem_cons.mp hm with rfl | hm
        · omega
        · exact hm
    · rw [has_value_cons_of_ge h]
      constructor
      · intro hb
        have hav : a = v := by simpa using hb
        exact hav ▸ List.mem_cons_self a t
      · intro hm
        rcases List.mem_cons.mp hm with rfl | hm
        · simp
        · have hav : a ≤ v := List.rel_of_sorted_cons hs v hm
          have : a = v := le_antisymm hav (Nat.le_of_not_lt h)
          simpa using this

/-- C4: for a sorted covered-line set, a pure-insertion hunk
(`old_lines = 0`, `new_lines > 0`) contributes exactly `new_lines`
occurrences of the current commit's hash when both boundary lines are
covered — a boundary at the very start (`new_start ≤ 1`) or past the end
of the file (`file_length < new_start`) counting as covered — and zero
occurrences when either boundary is uncovered. -/
theorem C4_insertion_attribution (target : String) (covered_line : List ℕ)
    (file_length : ℕ) (h : Hunk)
    (hsort : covered_line.Sorted (· ≤ ·))
    (hins : h.old_lines = 0 ∧ 0 < h.new_lines) :
    hunk_insertion_contribution target covered_line file_length h
      = if (h.new_start ≤ 1 ∨ h.new_start - 1 ∈ covered_line)
            ∧ (file_length < h.new_start ∨ h.new_start ∈ covered_line)
        then List.replicate h.new_lines target
        else [] := by
  unfold hunk_insertion_contribution
  rw [if_pos hins]
  have hprev : ((if 1 < h.new_start then has_value covered_line (h.new_start - 1) else true) = true)
      ↔ (h.new_start ≤ 1 ∨ h.new_start - 1 ∈ covered_line) := by
    split_ifs with h1
    · rw [has_value_iff_mem hsort]
      constructor
      · exact Or.inr
      · rintro (h2 | h2)
        · omega
        · exact h2
    · constructor
      · intro _
        exact Or.inl (by omega)
      · intro _
        rfl
  have hnext : ((if h.new_start ≤ file_length then has_value covered_line h.new_start else true) = true)
      ↔ (file_length < h.new_start ∨ h.new_start ∈ covered_line) := by
    split_ifs with h1
    · rw [has_value_iff_mem hsort]
      constructor
      · exact Or.inr
      · rintro (h2 | h2)
        · omega
        · exact h2
    · constructor
      · intro _
        exact Or.inl (by omega)
      · intro _
        rfl
  by_cases hc : (h.new_start ≤ 1 ∨ h.new_start - 1 ∈ covered_line)
      ∧ (file_length < h.new_start ∨ h.new_start ∈ covered_line)
  · rw [if_pos hc, if_pos]
    rw [Bool.and_eq_true]
    exact ⟨hprev.mpr hc.1, hnext.mpr hc.2⟩
  · rw [if_neg hc, if_neg]
    intro hcontra
    rw [Bool.and_eq_true] at hcontra
    exact hc ⟨hprev.mp hcontra.1, hnext.mp hcontra.2⟩

/-- Witness for C4: an interior insertion at line 3 with both
boundaries 2 and 3 covered contributes two copies of the hash. -/
theorem C4_insertion_attribution_witness :
    ([2, 3] : List ℕ).Sorted (· ≤ ·)
  ∧ (hunkW.old_lines = 0 ∧ 0 < hunkW.new_lines)
  ∧ hunk_insertion_contribution "c" [2, 3] 5 hunkW
      = if (hunkW.new_start ≤ 1 ∨ hunkW.new_start - 1 ∈ ([2, 3] : List ℕ))
            ∧ (5 < hunkW.new_start ∨ hunkW.new_start ∈ ([2, 3] : List ℕ))
        then List.replicate hunkW.new_lines "c" else [] :=
  ⟨by decide, by decide, C4_insertion_attribution "c" [2, 3] 5 hunkW (by decide) (by decide)⟩

theorem lookup_insertions_only (diffs : List (String × List Hunk)) (p : String) :
    List.lookup p (insertions_only diffs)
      = (List.lookup p diffs).map
          (fun hs => hs.filter (fun h => h.old_lines == 0 && decide (0 < h.new_lines))) := by
  induction diffs with
  | nil => rfl
  | cons pr rest ih =>
    obtain ⟨k, v⟩ := pr
    by_cases h : p == k
    · simp [insertions_only, List.lookup, h]
    · simp only [insertions_only, List.map_cons, List.lookup] at *
      simp [h, ih]

theorem contrib_filter_flatten (target : String) (covered : List ℕ) (fl : ℕ) (hs : List Hunk) :
    ((hs.filter (fun h => h.old_lines == 0 && decide (0 < h.new_lines))).map
        (hunk_insertion_contribution target covered fl)).flatten
      = (hs.map (hunk_insertion_contribution target covered fl)).flatten := by
  induction hs with
  | nil => rfl
  | cons h rest ih =>
    by_cases hc : (h.old_lines == 0 && decide (0 < h.new_lines)) = true
    · simp only [List.filter_cons, hc, if_true, List.map_cons, List.flatten_cons, ih]
    · have hz : hunk_insertion_contribution target covered fl h = [] := by
        unfold hunk_insertion_contribution
        rw [if_neg]
        intro hcon
        apply hc
        simp [hcon.1, hcon.2]
      simp only [List.filter_cons, hc, Bool.false_eq_true, if_false, List.map_cons,
        List.flatten_cons, ih, hz, List.nil_append]

theorem file_covering_hashes_insertions_only (target : String)
    (diffs : List (String × List Hunk)) (cov : List (String × List ℕ)) (file : FileRec) :
    file_covering_hashes target (insertions_only diffs) cov file
      = file_covering_hashes target diffs cov file := by
  unfold file_covering_hashes
  cases hcov : List.lookup file.path cov with
  | none => rfl
  | some covered =>
    rw [lookup_insertions_only]
    cases hd : List.lookup file.path diffs with
    | none => rfl
    | some hs =>
      simp only [Option.map_some', Option.getD_some]
      rw [contrib_filter_flatten]

/-- C5: deletion and modification hunks do not change the covering-hash
multiset — dropping every non-insertion hunk from the diff table leaves
`_get_covering_hashes` unchanged (the final per-line lookup reads the
original, unmutated blame list) — and for a state with no ChangeHunks
the multiset is exactly the blame-owner counts of the covered lines. -/
theorem C5_modifications_no_effect :
    (∀ (st : PState) (test_id : String),
       get_covering_hashes { st with data_diffs := insertions_only st.data_diffs } test_id
         = get_covering_hashes st test_id)
  ∧ (∀ (st : PState) (test_id : String), st.data_diffs = [] →
       get_covering_hashes st test_id = blame_owner_hashes st test_id) := by
  constructor
  · intro st tid
    unfold get_covering_hashes
    dsimp only
    congr 1
    apply List.map_congr_left
    intro file _
    exact file_covering_hashes_insertions_only st.target_hash st.data_diffs _ file
  · intro st tid hnil
    unfold get_covering_hashes blame_owner_hashes
    rw [hnil]
    congr 1

/-- Witness for C5 at the concrete state `exC1` (whose diff table is
empty). -/
theorem C5_modifications_no_effect_witness :
    get_covering_hashes { exC1 with data_diffs := insertions_only exC1.data_diffs } "A"
      = get_covering_hashes exC1 "A"
  ∧ exC1.data_diffs = []
  ∧ get_covering_hashes exC1 "A" = blame_owner_hashes exC1 "A" :=
  ⟨C5_modifications_no_effect.1 exC1 "A", by decide,
   C5_modifications_no_effect.2 exC1 "A" (by decide)⟩

theorem foldl_append_init (f : BlameHunk → List (Option String)) (l : List BlameHunk) :
    ∀ acc : List (Option String),
    l.foldl (fun a bh => a ++ f bh) acc = acc ++ (l.map f).flatten := by
  induction l with
  | nil => intro acc; simp
  | cons bh rest ih =>
    intro acc
    simp [ih]

theorem build_line_touched_hashes_eq (blame : List BlameHunk) :
    build_line_touched_hashes blame = none :: (blame_line_owners blame).map some := by
  unfold build_line_touched_hashes blame_line_owners
  rw [foldl_append_init, List.map_flatten, List.map_map]
  simp [Function.comp_def, List.map_replicate, List.singleton_append]

/-- C7: the claim says index 0 of the stored owner-hash sequence is the
owner of line 1 and its length is the file's line count, so that
`blame[line - 1]` names the owner of line `line`.  The extractor
(data_extract.py:248) starts the list with `[None]`: the stored list is
`none` followed by the owners, its length is the line count plus one,
and the consumer's `blame[1 - 1]` lookup yields `none` rather than the
owner of line 1. -/
theorem C7_blame_list_padded :
    (∀ blame : List BlameHunk,
       build_line_touched_hashes blame = none :: (blame_line_owners blame).map some)
  ∧ build_line_touched_hashes exBlame = [none, some "h1", some "h2"]
  ∧ blame_line_owners exBlame = ["h1", "h2"]
  ∧ (build_line_touched_hashes exBlame).length ≠ (blame_line_owners exBlame).length
  ∧ (build_line_touched_hashes exBlame).getD (1 - 1) none
      ≠ some ((blame_line_owners exBlame).getD (1 - 1) "dummy") :=
  ⟨build_line_touched_hashes_eq, by decide, by decide, by decide, by decide⟩

theorem py_sorted_rat_perm (key : Test → ℚ) (l : List Test) :
    (py_sorted_rat key l).Perm l := by
  unfold py_sorted_rat
  exact @List.perm_insertionSort Test (fun a b => key a ≤ key b)
    (fun a b => inferInstanceAs (Decidable (key a ≤ key b))) l

/-- C8: `_get_covered_loc` substitutes 1 when the covered-line total is
zero, so it is always positive (a nonzero rational divisor) and the
ratio-based strategies are defined on every input, returning a
permutation of the test set. -/
theorem C8_covered_loc_policy (st : PState) (test_id : String) :
    0 < get_covered_loc st test_id
  ∧ ((get_covered_loc st test_id : ℚ) ≠ 0)
  ∧ (covered_loc_raw st test_id = 0 → get_covered_loc st test_id = 1)
  ∧ (by_latest_commit_ratio st).Perm st.data_tests
  ∧ (∀ l, by_commit_ahead_average st = some l → l.Perm st.data_tests) := by
  have h1 : 0 < get_covered_loc st test_id := by
    unfold get_covered_loc
    dsimp only
    split
    · omega
    · omega
  refine ⟨h1, ?_, ?_, ?_, ?_⟩
  · exact_mod_cast Nat.pos_iff_ne_zero.mp h1
  · intro h0
    simp [get_covered_loc, h0]
  · unfold by_latest_commit_ratio
    exact py_sorted_rat_perm _ _
  · intro l hl
    unfold by_commit_ahead_average at hl
    split at hl
    · cases hl
      exact py_sorted_rat_perm _ _
    · cases hl

/-- Witness for C8: the test id "X" of `exC6` covers nothing, so its
raw covered total is 0 and `_get_covered_loc` yields 1; on `exEmpty`
the CommitAheadAverage strategy succeeds and permutes the (empty) test
set. -/
theorem C8_covered_loc_policy_witness :
    covered_loc_raw exC6 "X" = 0
  ∧ get_covered_loc exC6 "X" = 1
  ∧ by_commit_ahead_average exEmpty = some []
  ∧ ([] : List Test).Perm exEmpty.data_tests :=
  ⟨by decide, (C8_covered_loc_policy exC6 "X").2.2.1 (by decide), by decide,
   (C8_covered_loc_policy exEmpty "X").2.2.2.2 [] (by decide)⟩

end PPTFTC
